import Mathlib

set_option maxRecDepth 8000

/-!
Verification development for the `pi_music_server` repository.

The Python sources `src/config/fingerprint_tagger.py` (acoustic-fingerprint
album identification) and `src/config/tagger-app/app.py` (tagging web app with
backup / history / undo) are shallowly embedded below.  Pure helpers become
Lean functions, the stateful save / undo operations become explicit state
transformers over an album-granular filesystem model, and floating-point
threshold comparisons on scores and ratios are modelled with exact rationals.
-/

namespace PiMusic

/-! ## Python string primitives

All string operations are implemented by structural recursion on the
underlying character list so that every definition evaluates inside the
kernel. -/

/-- Python's `pat in hay` on lists of characters: `pat` occurs as a
contiguous sublist of `hay` (the empty pattern always matches). -/
def occursIn (hay pat : List Char) : Bool :=
  pat.isPrefixOf hay ||
    match hay with
    | [] => false
    | _ :: t => occursIn t pat

/-- Python's `pat in s` for strings. -/
def strIn (pat s : String) : Bool :=
  occursIn s.toList pat.toList

/-- Python's `s.split(sep, 1)`: split at the first occurrence of `sep`,
returning `none` when `sep` does not occur. -/
def splitFirstAux (hay sep : List Char) : Option (List Char × List Char) :=
  if sep.isPrefixOf hay then some ([], hay.drop sep.length)
  else
    match hay with
    | [] => none
    | c :: t => (splitFirstAux t sep).map (fun p => (c :: p.1, p.2))

/-- `s.split(sep, 1)` on strings (only the split case). -/
def splitFirst (s sep : String) : Option (String × String) :=
  (splitFirstAux s.toList sep.toList).map
    (fun p => (String.mk p.1, String.mk p.2))

/-- Drop leading whitespace characters. -/
def dropWS : List Char → List Char
  | [] => []
  | c :: t => if c.isWhitespace then dropWS t else c :: t

/-- Python's `s.strip()` on a character list: drop whitespace on both
ends. -/
def stripChars (l : List Char) : List Char :=
  (dropWS (dropWS l.reverse).reverse)

/-- Python's `s.strip()`. -/
def strStrip (s : String) : String :=
  String.mk (stripChars s.toList)

/-- Python's `s.lower()` (ASCII case fold, all the vocabulary involved is
ASCII). -/
def strLower (s : String) : String :=
  String.mk (s.toList.map Char.toLower)

/-- The filesystem-unsafe characters replaced by `sanitize`. -/
def badChars : List Char := ['/', '\\', ':', '*', '?', '"', '<', '>', '|']

/-- `sanitize` from `app.py` (and `sanitize_filename` from
`fingerprint_tagger.py` on non-`None` input): replace each unsafe character
with `-`, then strip surrounding whitespace. The source applies the nine
single-character replacements in sequence; since `-` is not itself unsafe
this equals one pass over the characters. -/
def sanitize (name : String) : String :=
  String.mk (stripChars (name.toList.map
    (fun c => if badChars.contains c then '-' else c)))

/-- `os.path.basename`: the component after the last `/`. -/
def basename (p : String) : String :=
  String.mk ((p.toList.reverse.takeWhile (fun c => c ≠ '/')).reverse)

/-- Python's `s.endswith(pat)`. -/
def strEndsWith (s pat : String) : Bool :=
  pat.toList.isSuffixOf s.toList

/-- Python's `f"{n:02d}"` for naturals. -/
def pad2 (n : Nat) : String :=
  if n < 10 then "0" ++ toString n else toString n

/-! ## Fingerprint resolver (`fingerprint_tagger.fingerprint_and_lookup`)

The AcoustID response is embedded structurally: a list of result groups,
each with a confidence score and a list of candidate recordings; absent JSON
keys are modelled by the falsy defaults the Python code supplies for them
(`''` for strings, `[]` for lists). Scores are exact rationals. -/

structure Release where
  title : String
  date : String
  deriving DecidableEq, Repr

structure Recording where
  rid : String
  title : String
  artists : List String
  releases : List Release
  deriving DecidableEq, Repr

structure RGroup where
  score : ℚ
  recordings : List Recording
  deriving DecidableEq, Repr

/-- The dict returned by `fingerprint_and_lookup` on success. -/
structure Found where
  score : ℚ
  recording_id : String
  title : String
  artist : String
  album : String
  year : String
  deriving DecidableEq, Repr

/-- The per-recording validity test of the inner loop: non-empty title and a
first artist entry with a non-empty name. -/
def validRec (rec : Recording) : Bool :=
  rec.title ≠ "" && rec.artists.headD "" ≠ ""

/-- Build the result dict from a chosen recording: album and year are read
from the first release entry if any; `album or 'Unknown Album'` and
`year or ''` apply the falsy-value defaults. -/
def mkFound (s : ℚ) (rec : Recording) : Found :=
  let a := match rec.releases.head? with
    | some r => r.title
    | none => ""
  let y := match rec.releases.head? with
    | some r =>
      if r.date ≠ "" ∧ 4 ≤ r.date.toList.length then
        String.mk (r.date.toList.take 4)
      else ""
    | none => ""
  { score := s
    recording_id := rec.rid
    title := rec.title
    artist := rec.artists.headD ""
    album := if a = "" then "Unknown Album" else a
    year := y }

/-- `fingerprint_and_lookup`, given the lookup response: iterate result
groups in order, skip groups scoring below `MIN_CONFIDENCE = 0.80`, and
within a group return the first recording with valid metadata. -/
def fingerprint_and_lookup (gs : List RGroup) : Option Found :=
  match gs with
  | [] => none
  | g :: t =>
    if g.score < mkRat 4 5 then fingerprint_and_lookup t
    else
      match g.recordings.find? validRec with
      | some rec => some (mkFound g.score rec)
      | none => fingerprint_and_lookup t

/-! ## Album consensus (`fingerprint_tagger.analyze_album`, decision core) -/

/-- `Counter(l).most_common(1)[0][1]` support: the maximal multiplicity. -/
def maxCount (l : List String) : Nat :=
  (l.map (fun a => l.count a)).foldr max 0

/-- `Counter(l).most_common(1)[0][0]`: the most frequent element; ties are
broken by first-encountered order (Python's `Counter` keeps insertion order
and `most_common` sorts stably by count). Rendered as: the first element of
`l` whose multiplicity is maximal. -/
def mostCommon (l : List String) : Option String :=
  l.find? (fun a => l.count a = maxCount l)

inductive Reject where
  | noFlac
  | insufficientIdentification
  | noArtists
  | noConsensus
  deriving DecidableEq, Repr

structure Candidate where
  artist : String
  album : String
  year : String
  identified_count : Nat
  total_tracks : Nat
  consensus_ratio : ℚ
  deriving DecidableEq, Repr

/-- `mkRat a b` with natural arguments is the rational `a / b`. -/
theorem mkRat_cast_div (a b : ℕ) : mkRat (a : ℤ) b = (a : ℚ) / b := by
  rw [Rat.mkRat_eq_div]
  norm_num

/-- The identified tracks of a scan, in file order. -/
def identifiedOf (results : List (Option Found)) : List Found :=
  results.filterMap id

/-- The `artists` list built during the scan (one entry per identified
track). -/
def artistsOf (results : List (Option Found)) : List String :=
  (identifiedOf results).map (fun f => f.artist)

/-- The `albums` list built during the scan (`if result.get('album')`
keeps only truthy strings). -/
def albumsOf (results : List (Option Found)) : List String :=
  ((identifiedOf results).map (fun f => f.album)).filter (fun a => a ≠ "")

/-- The decision core of `analyze_album`, applied to the per-file lookup
results (in sorted file order): identification-ratio gate, artist presence
gate, consensus gate, then album / year selection. The source's ratios are
`identified_count / len(flac_files)` and `artist_count / len(artists)`
compared against `0.70`; they are rendered as the exact rationals
`mkRat a b` (equal to `(a : ℚ) / b`, see `mkRat_cast_div`). -/
def analyze_album (results : List (Option Found)) : Except Reject Candidate :=
  if results.length = 0 then .error .noFlac
  else
    let identified := identifiedOf results
    let artists := artistsOf results
    let identified_count := identified.length
    if mkRat identified_count results.length < mkRat 7 10 then
      .error .insufficientIdentification
    else if artists = [] then .error .noArtists
    else
      match mostCommon artists with
      | none => .error .noArtists
      | some pa =>
        let c := artists.count pa
        if mkRat c artists.length < mkRat 7 10 then .error .noConsensus
        else
          let albums := albumsOf results
          let album := (mostCommon albums).getD "Unknown Album"
          let year := ((identified.map (fun f => f.year)).find?
            (fun y => y ≠ "")).getD ""
          .ok { artist := pa
                album := album
                year := year
                identified_count := identified_count
                total_tracks := results.length
                consensus_ratio := mkRat c artists.length }

/-! ## History ledger (`app.py` history functions)

The history file is modelled as an in-memory list of entries; `load_history`
/ `save_history` become the identity on that list. -/

structure Entry where
  id : Nat
  timestamp : String
  artist : String
  album : String
  action : String
  original_path : String
  new_path : Option String
  backup_path : Option String
  undone : Bool
  deriving DecidableEq, Repr

/-- The payload a caller of `add_history_entry` supplies (the dict before
`id` / `timestamp` / `undone` are filled in). -/
structure EntryData where
  artist : String
  album : String
  action : String
  original_path : String
  new_path : Option String
  backup_path : Option String
  deriving DecidableEq, Repr

/-- `add_history_entry`: assign `id = len(history) + 1`, stamp the entry,
append it, and keep only the last 100 entries when the list exceeds 100. -/
def add_history_entry (history : List Entry) (d : EntryData) (now : String) :
    List Entry :=
  let e : Entry :=
    { id := history.length + 1
      timestamp := now
      artist := d.artist
      album := d.album
      action := d.action
      original_path := d.original_path
      new_path := d.new_path
      backup_path := d.backup_path
      undone := false }
  let h2 := history ++ [e]
  if h2.length > 100 then h2.drop (h2.length - 100) else h2

/-- Python truthiness of an optional string field. -/
def truthy : Option String → Bool
  | some s => s ≠ ""
  | none => false

/-- The per-entry test of `get_last_undoable`:
`not entry.get('undone') and entry.get('backup_path')`. -/
def undoableB (e : Entry) : Bool :=
  !e.undone && truthy e.backup_path

/-- `get_last_undoable`: scan the history newest-first and return the first
entry that is not undone and has a truthy `backup_path`. -/
def get_last_undoable (history : List Entry) : Option Entry :=
  history.reverse.find? undoableB

/-- The `for h in history: if h['id'] == id: h['undone'] = True; break`
loop of `undo`: flip the first entry with the given id. -/
def markUndone : List Entry → Nat → List Entry
  | [], _ => []
  | e :: t, i =>
    if e.id = i then { e with undone := true } :: t else e :: markUndone t i

/-! ## Filesystem model and the tagger app state

Directories are modelled at album granularity: a directory is an ordered
(filename-sorted) association list of FLAC files, and the music library and
the backup area (`BACKUP_DIR` lives outside `MUSIC_DIR`) are two partial
maps from paths to directories. -/

/-- A FLAC file: its tag dictionary (in write order), embedded pictures and
opaque audio payload. -/
structure Flac where
  tags : List (String × String)
  pics : List String
  audio : String
  deriving DecidableEq, Repr

/-- An album directory: filename-sorted list of files. -/
abbrev Dir := List (String × Flac)

/-- The mutable state of the tagger app: music library, backup area and
history file. -/
structure St where
  music : String → Option Dir
  backups : String → Option Dir
  history : List Entry

def MUSIC_DIR : String := "/home/arm/music"
def BACKUP_DIR : String := "/home/arm/logs/tagger_backups"

/-! ## Compilation detection and track-title splitting (`save`) -/

def compilation_keywords : List String :=
  ["various artists", "various", "va", "soundtrack", "ost", "compilation",
    "sampler"]

/-- `is_compilation` from `save`: exact (lowercased, stripped) match against
the keyword list, or `'various'` / `'soundtrack'` / `'ost'` occurring as a
substring of the lowercased artist. -/
def is_compilation (artist : String) : Bool :=
  compilation_keywords.contains (strStrip (strLower artist)) ||
    (["various", "soundtrack", "ost"].any
      (fun kw => strIn kw (strLower artist)))

/-- The per-track title handling of `save`: strip the form value, fall back
to `"Track N"` when empty, and for compilations split `"Artist - Title"` at
the first `" - "` when both halves are non-blank. Returns
`(track_artist, track_title)`. -/
def trackFields (artist rawTitle : String) (i : Nat) : String × String :=
  let title := if strStrip rawTitle = "" then "Track " ++ toString i
    else strStrip rawTitle
  if is_compilation artist ∧ strIn " - " title then
    match splitFirst title " - " with
    | some (a, b) =>
      if strStrip a ≠ "" ∧ strStrip b ≠ "" then (strStrip a, strStrip b)
      else (artist, title)
    | none => (artist, title)
  else (artist, title)

/-- The tag rewrite applied to one file by `save` (delete all tags, clear
pictures, write the fixed vocabulary, re-add new or preserved art). -/
def retag (f : Flac) (tArtist artist albumName tTitle : String)
    (i total : Nat) (isComp : Bool) (year genre dn dt : String)
    (art : Option String) : Flac :=
  { tags :=
      [("ARTIST", tArtist), ("ALBUMARTIST", artist), ("ALBUM", albumName),
        ("TITLE", tTitle), ("TRACKNUMBER", toString i),
        ("TRACKTOTAL", toString total)]
      ++ (if isComp then [("COMPILATION", "1")] else [])
      ++ (if year ≠ "" then [("DATE", year)] else [])
      ++ (if genre ≠ "" then [("GENRE", genre)] else [])
      ++ (if dn ≠ "" then [("DISCNUMBER", dn)] else [])
      ++ (if dt ≠ "" then [("DISCTOTAL", dt)] else [])
    pics := match art with
      | some a => [a]
      | none => f.pics
    audio := f.audio }

/-- Destination filename for a moved track
(`"NN - Title.flac"`, or `"NN - TrackArtist - Title.flac"` for a
compilation track whose parsed artist differs from the album artist). -/
def newTrackName (isComp : Bool) (artist tArtist tTitle : String)
    (i : Nat) : String :=
  if isComp ∧ tArtist ≠ artist then
    pad2 i ++ " - " ++ sanitize tArtist ++ " - " ++ sanitize tTitle ++ ".flac"
  else
    pad2 i ++ " - " ++ sanitize tTitle ++ ".flac"

/-- The track loop of `save` over the sorted file list: tag every file and
(when moving) compute its destination name. `titles i` is the form value
`track_i`. Returns the directory contents after the loop, under the
destination when `move = true`, in place otherwise. -/
def processTracks (files : List (String × Flac)) (move : Bool)
    (artist albumName year genre dn dt : String) (titles : Nat → String)
    (art : Option String) : List (String × Flac) :=
  let isComp := is_compilation artist
  let total := files.length
  files.enum.map (fun p =>
    let i := p.1 + 1
    let name := p.2.1
    let f := p.2.2
    let tf := trackFields artist (titles i) i
    let f' := retag f tf.1 artist albumName tf.2 i total isComp
      year genre dn dt art
    if move then (newTrackName isComp artist tf.1 tf.2 i, f') else (name, f'))

/-! ## Backup creation, save and undo (`app.py`) -/

/-- The destination directory `save` computes for the given (raw) artist
and album form values: `MUSIC_DIR/sanitized_artist/sanitized_album`. -/
def destOf (artistRaw albumRaw : String) : String :=
  MUSIC_DIR ++ "/" ++ sanitize (strStrip artistRaw) ++ "/" ++
    sanitize (strStrip albumRaw)

/-- The backup path `create_backup` produces for a source folder at the
given timestamp. -/
def backupPathOf (src now : String) : String :=
  BACKUP_DIR ++ "/backup_" ++ now ++ "_" ++ basename src

/-- `create_backup`: delete every backup directory whose name ends with
`"_" + basename(folder)`, then copy the folder to
`BACKUP_DIR + "/backup_" + timestamp + "_" + basename(folder)`.
Returns the new backup map and the backup path. -/
def create_backup (backups : String → Option Dir) (d : Dir)
    (folder_path now : String) : (String → Option Dir) × String :=
  let albumBase := basename folder_path
  let bp := backupPathOf folder_path now
  (fun p =>
    if p = bp then some d
    else if strEndsWith p ("_" ++ albumBase) then none
    else backups p, bp)

inductive SaveRes where
  | notFound
  | missingFields
  | destinationExists
  | success
  deriving DecidableEq, Repr

/-- The `save` route: check the source folder exists and the stripped artist
and album fields are non-empty, take a backup (replacing same-named prior
backups), compute the sanitized destination, abort when a distinct
destination already exists, otherwise tag (and, when the destination
differs, rename-move) every track, remove the source folder and append a
history entry. -/
def save (st : St) (src : String) (artistRaw albumRaw year genre dn dt : String)
    (titles : Nat → String) (art : Option String) (now : String) :
    St × SaveRes :=
  match st.music src with
  | none => (st, .notFound)
  | some d =>
    let artist := strStrip artistRaw
    let albumName := strStrip albumRaw
    if artist = "" ∨ albumName = "" then (st, .missingFields)
    else
      let cb := create_backup st.backups d src now
      let backups1 := cb.1
      let bp := cb.2
      let dst := destOf artistRaw albumRaw
      let same := dst = src
      if ¬ same ∧ (st.music dst).isSome then
        ({ st with backups := backups1 }, .destinationExists)
      else
        let newFiles := processTracks d (!same) artist albumName
          (strStrip year) (strStrip genre) (strStrip dn) (strStrip dt)
          titles art
        let music1 : String → Option Dir :=
          if same then fun p => if p = src then some newFiles else st.music p
          else fun p =>
            if p = dst then some newFiles
            else if p = src then none
            else st.music p
        let action := if same then "Updated metadata"
          else "Moved from " ++ basename src
        let hist1 := add_history_entry st.history
          { artist := artist, album := albumName, action := action,
            original_path := src, new_path := some dst,
            backup_path := some bp } now
        ({ music := music1, backups := backups1, history := hist1 },
          .success)

inductive UndoRes where
  | nothingToUndo
  | backupMissing
  | success
  deriving DecidableEq, Repr

/-- The `undo` route: find the newest not-undone entry with a truthy
`backup_path`; report nothing-to-undo when there is none; when its backup no
longer exists report backup-missing; otherwise delete the destination and
any leftover source contents, move the backup back to the source path and
flip the entry's `undone` flag. -/
def undo (st : St) : St × UndoRes :=
  match get_last_undoable st.history with
  | none => (st, .nothingToUndo)
  | some e =>
    match e.backup_path with
    | none => (st, .backupMissing)
    | some bp =>
      if bp ≠ "" ∧ (st.backups bp).isSome then
        let bd := (st.backups bp).getD []
        let music1 : String → Option Dir := fun p =>
          if p = e.original_path then some bd
          else if some p = e.new_path then none
          else st.music p
        let backups1 : String → Option Dir := fun p =>
          if p = bp then none else st.backups p
        ({ music := music1, backups := backups1,
            history := markUndone st.history e.id }, .success)
      else (st, .backupMissing)

deriving instance DecidableEq for Except

/-! ## Specification-side definitions

These definitions follow the wording of the specification claims (not the
code); the theorems below compare them with the embedded code. -/

/-- Claim side (C8): the resolver's target is the first recording, scanning
result groups in order and skipping groups scoring below the `0.80`
confidence floor, that has both a non-empty title and a non-empty (first)
artist name; paired with its group's score. -/
def claimResolverTarget (gs : List RGroup) : Option (ℚ × Recording) :=
  gs.findSome? (fun g =>
    if g.score < mkRat 4 5 then none
    else (g.recordings.find? validRec).map (fun rec => (g.score, rec)))

/-- Claim side (C2): the undo target found by scanning history newest-first
for the first entry that is not undone, has a non-null backup path AND
whose backup still exists on disk. -/
def claimUndoTarget (history : List Entry)
    (existsOnDisk : String → Bool) : Option Entry :=
  history.reverse.find? (fun e =>
    !e.undone && truthy e.backup_path &&
      (match e.backup_path with
       | some bp => existsOnDisk bp
       | none => false))

/-- Claim side (C3/C9): `a` is a most frequent element of `l`, with ties
broken by first-encountered order: no element is more frequent, and every
element encountered strictly before `a`'s first occurrence is strictly less
frequent (so no earlier element ties with `a`). -/
def IsPrimary (l : List String) (a : String) : Prop :=
  (∀ b ∈ l, l.count b ≤ l.count a) ∧
    ∃ pre post, l = pre ++ a :: post ∧ ∀ b ∈ pre, l.count b < l.count a

/-- Claim side (C4): membership of the album artist in the fixed
multi-artist vocabulary (the claim's compilation marker). -/
def claimVocabMatch (artist : String) : Bool :=
  compilation_keywords.contains (strStrip (strLower artist))

/-- Claim side (C4): split the supplied track title at the first `" - "`
exactly when the album artist matches the vocabulary and the title contains
`" - "`; otherwise the track keeps the album artist and the supplied title
(falling back to `"Track N"` when empty). -/
def claimTrackFields (artist rawTitle : String) (i : Nat) : String × String :=
  let title := if strStrip rawTitle = "" then "Track " ++ toString i
    else strStrip rawTitle
  if claimVocabMatch artist ∧ strIn " - " title then
    match splitFirst title " - " with
    | some (a, b) => (strStrip a, strStrip b)
    | none => (artist, title)
  else (artist, title)

/-- Claim side (C9): the album string a track "carries": the non-empty
title of the first release of the recording the resolver selects for it
(nothing when the track is unidentified, has no release, or the release
title is empty). -/
def carriedAlbum (gs : List RGroup) : Option String :=
  (claimResolverTarget gs).bind (fun p =>
    (p.2.releases.head?).bind (fun r =>
      if r.title = "" then none else some r.title))

/-- Claim side (C9): the non-empty carried album strings of an album scan,
in track order. -/
def carriedAlbums (inputs : List (List RGroup)) : List String :=
  inputs.filterMap carriedAlbum

/-- The substring-based compilation marker actually implemented by `save`
(the amended form of the C4 claim's vocabulary test): an exact vocabulary
match, or `'various'` / `'soundtrack'` / `'ost'` occurring anywhere in the
lowercased artist. -/
def amendedCompMarker (artist : String) : Bool :=
  claimVocabMatch artist || strIn "various" (strLower artist) ||
    strIn "soundtrack" (strLower artist) || strIn "ost" (strLower artist)

/-- The amended C4 track rule: split at the first `" - "` exactly when the
amended compilation marker holds, the title contains `" - "`, and both
halves are non-blank after stripping. -/
def amendedTrackFields (artist rawTitle : String) (i : Nat) :
    String × String :=
  let title := if strStrip rawTitle = "" then "Track " ++ toString i
    else strStrip rawTitle
  if amendedCompMarker artist ∧ strIn " - " title then
    match splitFirst title " - " with
    | some (a, b) =>
      if strStrip a ≠ "" ∧ strStrip b ≠ "" then (strStrip a, strStrip b)
      else (artist, title)
    | none => (artist, title)
  else (artist, title)

/-- The caller-supplied part of a ledger entry together with its timestamp
(everything except the assigned id and the undone flag). -/
def entrySnapshot (e : Entry) : EntryData × String :=
  ({ artist := e.artist, album := e.album, action := e.action,
     original_path := e.original_path, new_path := e.new_path,
     backup_path := e.backup_path }, e.timestamp)

/-- `n` successive `add_history_entry` calls starting from an empty
history, with payload `f i` and timestamp `now i` for the `i`-th call. -/
def appendRun (f : Nat → EntryData) (now : Nat → String) (n : Nat) :
    List Entry :=
  (List.range n).foldl (fun h i => add_history_entry h (f i) (now i)) []

/-! ## Concrete example data (used by witnesses and counterexamples) -/

/-- An identified track by artist `A` on album `X`. -/
def hitA : Found :=
  { score := mkRat 9 10, recording_id := "", title := "t", artist := "A",
    album := "X", year := "" }

/-- An identified track by artist `B` on album `X`. -/
def hitB : Found :=
  { score := mkRat 9 10, recording_id := "", title := "t", artist := "B",
    album := "X", year := "" }

/-- A 10-track album scan: 8 tracks identify artist `A`, 2 identify
artist `B`. -/
def ex10 : List (Option Found) :=
  [some hitA, some hitA, some hitA, some hitA, some hitA, some hitA,
    some hitA, some hitA, some hitB, some hitB]

/-- A recording with valid metadata but no release entry. -/
def recNoRel : Recording :=
  { rid := "r1", title := "T", artists := ["A"], releases := [] }

/-- A recording with valid metadata and a release `X` dated 1999. -/
def recRel : Recording :=
  { rid := "r2", title := "T2", artists := ["A"],
    releases := [{ title := "X", date := "1999-01-01" }] }

/-- A high-confidence single-recording result group around `recNoRel`. -/
def groupNoRel : List RGroup := [⟨mkRat 9 10, [recNoRel]⟩]

/-- A high-confidence single-recording result group around `recRel`. -/
def groupRel : List RGroup := [⟨mkRat 9 10, [recRel]⟩]

/-- Seven identified tracks: four whose recordings have no release (the
resolver reports `"Unknown Album"` for them) and three on release `X`. -/
def exPipeline : List (List RGroup) :=
  [groupNoRel, groupNoRel, groupNoRel, groupNoRel, groupRel, groupRel,
    groupRel]

/-- The canned entry payload used when exercising the history cap. -/
def dummyData : EntryData :=
  { artist := "", album := "", action := "", original_path := "",
    new_path := none, backup_path := none }

/-- The history after `n` mutating actions appended to an empty ledger. -/
def histN (n : Nat) : List Entry :=
  (List.range n).foldl (fun h i => add_history_entry h dummyData (toString i))
    []

/-- A one-track album directory used in the round-trip scenarios. -/
def exFlac : Flac := { tags := [("TITLE", "old")], pics := [], audio := "AAA" }

def exDir : Dir := [("01 - a.flac", exFlac)]

def exSrc : String := "/home/arm/music/Unknown Artist/Al"

/-- Initial state: the source album exists, no backups, empty history. -/
def exSt : St :=
  { music := fun p => if p = exSrc then some exDir else none
    backups := fun _ => none
    history := [] }

/-- A state whose history has gone past the 100-entry cap: 100 retained
non-undoable entries, one of which already carries id 101 — the id the
next appended entry will also receive. -/
def exStBug : St :=
  { music := fun p => if p = exSrc then some exDir else none
    backups := fun _ => none
    history := histN 101 }

/-- The destination computed by `save` for artist `Queen`, album `News`. -/
def exDst : String :=
  MUSIC_DIR ++ "/" ++ sanitize "Queen" ++ "/" ++ sanitize "News"

/-- Initial state for the destination-conflict scenario: source and a
non-identical destination both exist. -/
def exStConflict : St :=
  { music := fun p =>
      if p = exSrc then some exDir else if p = exDst then some [] else none
    backups := fun _ => none
    history := [] }

/-- History for the C2 counterexample: an older entry whose backup exists
and a newer entry whose backup is gone. -/
def e1 : Entry :=
  { id := 1, timestamp := "t1", artist := "A1", album := "B1",
    action := "Moved from a", original_path := "/m/a", new_path := some "/m/x",
    backup_path := some "/b/backup_1_a", undone := false }

def e2 : Entry :=
  { id := 2, timestamp := "t2", artist := "A2", album := "B2",
    action := "Moved from b", original_path := "/m/b", new_path := some "/m/y",
    backup_path := some "/b/backup_2_b", undone := false }

/-- State for the C2 counterexample: `e2` is newer but its backup was
superseded; only `e1`'s backup still exists. -/
def exStC2 : St :=
  { music := fun _ => none
    backups := fun p => if p = "/b/backup_1_a" then some [] else none
    history := [e1, e2] }

/-! ## General lemmas -/

/-- Decomposition of a successful `find?`: the list splits at the first
element satisfying the predicate. -/
theorem find?_decomp {α : Type} {p : α → Bool} {l : List α} {a : α}
    (h : l.find? p = some a) :
    p a = true ∧ ∃ pre post, l = pre ++ a :: post ∧ ∀ x ∈ pre, p x = false := by
  induction l with
  | nil => simp [List.find?] at h
  | cons b t ih =>
    by_cases hb : p b = true
    · rw [List.find?_cons_of_pos _ hb] at h
      cases h
      exact ⟨hb, [], t, rfl, by simp⟩
    · rw [List.find?_cons_of_neg _ (by simpa using hb)] at h
      obtain ⟨hpa, pre, post, rfl, hpre⟩ := ih h
      refine ⟨hpa, b :: pre, post, rfl, ?_⟩
      intro x hx
      rcases List.mem_cons.1 hx with rfl | hx
      · simpa using hb
      · exact hpre x hx

/-- Converse decomposition: `find?` returns the head of the first
satisfying suffix. -/
theorem find?_of_decomp {α : Type} {p : α → Bool} {pre post : List α} {a : α}
    (hpa : p a = true) (hpre : ∀ x ∈ pre, p x = false) :
    (pre ++ a :: post).find? p = some a := by
  induction pre with
  | nil => simp [List.find?_cons_of_pos _ hpa]
  | cons b t ih =>
    have hb : p b = false := hpre b (by simp)
    rw [List.cons_append, List.find?_cons_of_neg _ (by simp [hb])]
    exact ih (fun x hx => hpre x (List.mem_cons_of_mem _ hx))

/-- A nonempty string stays nonempty after appending on the right. -/
theorem append_ne_empty_left {s : String} (t : String) (h : s ≠ "") :
    s ++ t ≠ "" := by
  intro hc
  apply h
  have hdata : s.data ++ t.data = [] := congrArg String.data hc
  cases s with
  | mk l =>
    cases l with
    | nil => rfl
    | cons c cs => simp at hdata

/-! ## `mostCommon` realises the first-encountered most-frequent choice -/

/-- Every multiplicity in `l` is bounded by `maxCount l`. -/
theorem count_le_maxCount (l : List String) (b : String) (hb : b ∈ l) :
    l.count b ≤ maxCount l := by
  unfold maxCount
  have : l.count b ∈ l.map (fun a => l.count a) := List.mem_map_of_mem _ hb
  revert this
  generalize l.map (fun a => l.count a) = L
  intro hmem
  induction L with
  | nil => simp at hmem
  | cons x t ih =>
    rcases List.mem_cons.1 hmem with rfl | hmem
    · exact Nat.le_max_left _ _
    · exact le_trans (ih hmem) (Nat.le_max_right _ _)

/-- For a nonempty list some element attains `maxCount`. -/
theorem exists_count_eq_maxCount (l : List String) (h : l ≠ []) :
    ∃ a ∈ l, l.count a = maxCount l := by
  cases l with
  | nil => exact absurd rfl h
  | cons x t =>
    -- the fold is either attained by a mapped count or is 0; the head's
    -- count is positive, so the fold is attained.
    have hattain : ∀ L : List ℕ, L.foldr max 0 ∈ L ∨ L.foldr max 0 = 0 := by
      intro L
      induction L with
      | nil => simp
      | cons y s ih =>
        simp only [List.foldr]
        rcases Nat.le_total y (s.foldr max 0) with hle | hle
        · rw [Nat.max_eq_right hle]
          rcases ih with hm | h0
          · exact Or.inl (List.mem_cons_of_mem _ hm)
          · rw [h0] at hle ⊢
            interval_cases y
            · simp
        · rw [Nat.max_eq_left hle]
          exact Or.inl (List.mem_cons_self _ _)
    rcases hattain ((x :: t).map (fun a => (x :: t).count a)) with hm | h0
    · obtain ⟨a, ha, hc⟩ := List.mem_map.1 hm
      exact ⟨a, ha, hc⟩
    · exfalso
      have hx : (x :: t).count x ≤ maxCount (x :: t) :=
        count_le_maxCount _ _ (List.mem_cons_self _ _)
      have hpos : 0 < (x :: t).count x :=
        List.count_pos_iff.2 (List.mem_cons_self _ _)
      unfold maxCount at hx
      omega

/-- `mostCommon` succeeds on a nonempty list. -/
theorem mostCommon_isSome (l : List String) (h : l ≠ []) :
    ∃ a, mostCommon l = some a := by
  obtain ⟨a, ha, hc⟩ := exists_count_eq_maxCount l h
  unfold mostCommon
  cases hf : l.find? (fun a => l.count a = maxCount l) with
  | none =>
    exfalso
    have := List.find?_eq_none.1 hf a ha
    simp [hc] at this
  | some b => exact ⟨b, rfl⟩

/-- What `mostCommon` returns is a most frequent element, ties broken by
first-encountered order. -/
theorem mostCommon_primary (l : List String) (a : String)
    (h : mostCommon l = some a) : IsPrimary l a := by
  unfold mostCommon at h
  obtain ⟨hpa, pre, post, hdec, hpre⟩ := find?_decomp h
  have hmax : l.count a = maxCount l := by simpa using hpa
  constructor
  · intro b hb
    rw [hmax]
    exact count_le_maxCount l b hb
  · refine ⟨pre, post, hdec, ?_⟩
    intro b hb
    have hfb : l.count b ≠ maxCount l := by simpa using hpre b hb
    have hble : l.count b ≤ maxCount l :=
      count_le_maxCount l b (hdec ▸ List.mem_append_left _ hb)
    omega

/-! ## History ledger lemmas -/

/-- The entry `add_history_entry` builds from its inputs. -/
def stampedEntry (h : List Entry) (d : EntryData) (now : String) : Entry :=
  { id := h.length + 1
    timestamp := now
    artist := d.artist
    album := d.album
    action := d.action
    original_path := d.original_path
    new_path := d.new_path
    backup_path := d.backup_path
    undone := false }

/-- `add_history_entry` appends the stamped entry and drops the overflow
from the front. -/
theorem add_history_entry_eq (h : List Entry) (d : EntryData) (now : String) :
    add_history_entry h d now =
      h.drop (h.length + 1 - 100) ++ [stampedEntry h d now] := by
  unfold add_history_entry stampedEntry
  simp only [List.length_append, List.length_cons, List.length_nil]
  by_cases hl : h.length + 1 > 100
  · rw [if_pos hl, List.drop_append_of_le_length (by omega)]
  · rw [if_neg hl]
    have h0 : h.length + 1 - 100 = 0 := by omega
    simp [h0]

/-- Entries carried over by an append are entries of the old history. -/
theorem mem_of_mem_add_history_entry {h : List Entry} {d : EntryData}
    {now : String} {e : Entry} (he : e ∈ add_history_entry h d now) :
    e ∈ h ∨ e = stampedEntry h d now := by
  rw [add_history_entry_eq] at he
  rcases List.mem_append.1 he with hin | hin
  · exact Or.inl (List.mem_of_mem_drop hin)
  · simp at hin
    exact Or.inr hin

/-- Scanning newest-first finds a just-appended undoable entry. -/
theorem get_last_undoable_concat (h : List Entry) (e : Entry)
    (he : undoableB e = true) : get_last_undoable (h ++ [e]) = some e := by
  unfold get_last_undoable
  rw [List.reverse_append]
  simp only [List.reverse_cons, List.reverse_nil, List.nil_append,
    List.cons_append, List.nil_append]
  exact List.find?_cons_of_pos _ he

/-- With no undoable entry at all, the scan reports nothing. -/
theorem get_last_undoable_none (h : List Entry)
    (hall : ∀ e ∈ h, undoableB e = false) : get_last_undoable h = none := by
  unfold get_last_undoable
  exact List.find?_eq_none.2 (fun e hme => by
    simp [hall e (List.mem_reverse.1 hme)])

/-- Flipping an entry by id when no earlier entry shares the id. -/
theorem markUndone_concat (pre : List Entry) (e : Entry)
    (hpre : ∀ x ∈ pre, x.id ≠ e.id) :
    markUndone (pre ++ [e]) e.id = pre ++ [{ e with undone := true }] := by
  induction pre with
  | nil => simp [markUndone]
  | cons b t ih =>
    have hb : b.id ≠ e.id := hpre b (by simp)
    simp only [List.cons_append, markUndone, if_neg hb, List.append_eq]
    rw [ih (fun x hx => hpre x (List.mem_cons_of_mem _ hx))]

/-- An entry marked undone is no longer an undo candidate. -/
theorem undoableB_marked (e : Entry) :
    undoableB { e with undone := true } = false := by
  simp [undoableB]

/-! ## Resolver and consensus characterisation -/

/-- The embedded resolver equals first-fit selection (the claim-side scan)
followed by metadata extraction. -/
theorem lookup_eq_claimTarget (gs : List RGroup) :
    fingerprint_and_lookup gs =
      (claimResolverTarget gs).map (fun p => mkFound p.1 p.2) := by
  induction gs with
  | nil => rfl
  | cons g t ih =>
    unfold claimResolverTarget at ih ⊢
    unfold fingerprint_and_lookup
    rw [List.findSome?_cons]
    by_cases hs : g.score < mkRat 4 5
    · simp only [if_pos hs]
      exact ih
    · simp only [if_neg hs]
      cases hf : g.recordings.find? validRec with
      | none => exact ih
      | some rec => rfl

/-- Everything `analyze_album` commits to on acceptance, together with the
gates that must have passed. -/
theorem analyze_ok_spec (results : List (Option Found)) (c : Candidate)
    (h : analyze_album results = .ok c) :
    mostCommon (artistsOf results) = some c.artist ∧
    c.album = (mostCommon (albumsOf results)).getD "Unknown Album" ∧
    c.consensus_ratio =
      mkRat ((artistsOf results).count c.artist) (artistsOf results).length ∧
    c.year = (((identifiedOf results).map (fun f => f.year)).find?
      (fun y => y ≠ "")).getD "" ∧
    c.identified_count = (identifiedOf results).length ∧
    c.total_tracks = results.length ∧
    ¬ mkRat ((identifiedOf results).length) results.length < mkRat 7 10 ∧
    artistsOf results ≠ [] ∧
    ¬ mkRat ((artistsOf results).count c.artist)
        (artistsOf results).length < mkRat 7 10 := by
  simp only [analyze_album] at h
  by_cases h0 : results.length = 0
  · simp [h0] at h
  rw [if_neg h0] at h
  by_cases h1 : mkRat ((identifiedOf results).length) results.length <
      mkRat 7 10
  · simp [h1] at h
  rw [if_neg h1] at h
  by_cases h2 : artistsOf results = []
  · simp [h2] at h
  rw [if_neg h2] at h
  cases hm : mostCommon (artistsOf results) with
  | none => rw [hm] at h; simp at h
  | some pa =>
    rw [hm] at h
    by_cases h3 : mkRat ((artistsOf results).count pa)
        (artistsOf results).length < mkRat 7 10
    · simp [h3] at h
    simp only [if_neg h3, Except.ok.injEq] at h
    subst h
    exact ⟨rfl, rfl, rfl, rfl, rfl, rfl, h1, h2, h3⟩

/-- `analyze_album` rejects with `NoConsensus` exactly when the first two
gates pass and the consensus ratio of the most frequent artist falls below
the floor. -/
theorem analyze_noConsensus_iff (results : List (Option Found)) (pa : String)
    (h0 : results.length ≠ 0)
    (h1 : ¬ mkRat ((identifiedOf results).length) results.length < mkRat 7 10)
    (hm : mostCommon (artistsOf results) = some pa) :
    (analyze_album results = .error .noConsensus ↔
      mkRat ((artistsOf results).count pa) (artistsOf results).length <
        mkRat 7 10) := by
  have h2 : artistsOf results ≠ [] := by
    intro hc
    rw [hc] at hm
    simp [mostCommon] at hm
  simp only [analyze_album, if_neg h0, if_neg h1, if_neg h2, hm]
  by_cases h3 : mkRat ((artistsOf results).count pa)
      (artistsOf results).length < mkRat 7 10
  · simp [h3]
  · simp [h3]

/-- When every gate passes, `analyze_album` accepts. -/
theorem analyze_ok_of_gates (results : List (Option Found)) (pa : String)
    (h0 : results.length ≠ 0)
    (h1 : ¬ mkRat ((identifiedOf results).length) results.length < mkRat 7 10)
    (hm : mostCommon (artistsOf results) = some pa)
    (h3 : ¬ mkRat ((artistsOf results).count pa)
        (artistsOf results).length < mkRat 7 10) :
    ∃ c, analyze_album results = .ok c ∧ c.artist = pa := by
  have h2 : artistsOf results ≠ [] := by
    intro hc
    rw [hc] at hm
    simp [mostCommon] at hm
  refine ⟨{ artist := pa
            album := (mostCommon (albumsOf results)).getD "Unknown Album"
            year := (((identifiedOf results).map (fun f => f.year)).find?
              (fun y => y ≠ "")).getD ""
            identified_count := (identifiedOf results).length
            total_tracks := results.length
            consensus_ratio := mkRat ((artistsOf results).count pa)
              (artistsOf results).length }, ?_, rfl⟩
  simp only [analyze_album, if_neg h0, if_neg h1, if_neg h2, hm, if_neg h3]

/-! ## `save` branch characterisations -/

/-- A backup path is never the empty string. -/
theorem backupPathOf_ne_empty (src now : String) :
    backupPathOf src now ≠ "" := by
  unfold backupPathOf
  apply append_ne_empty_left
  apply append_ne_empty_left
  apply append_ne_empty_left
  decide

/-- `save` with a valid request whose distinct destination already exists:
abort with `DestinationExists`; only the backup area has changed. -/
theorem save_destExists_spec (st : St) (src a b y g dn dt : String)
    (titles : Nat → String) (art : Option String) (now : String) (d : Dir)
    (hsrc : st.music src = some d)
    (ha : strStrip a ≠ "") (hb : strStrip b ≠ "")
    (hne : destOf a b ≠ src)
    (hex : (st.music (destOf a b)).isSome) :
    save st src a b y g dn dt titles art now =
      ({ st with backups := (create_backup st.backups d src now).1 },
        .destinationExists) := by
  have hor : ¬ (strStrip a = "" ∨ strStrip b = "") := by
    rintro (h | h)
    exacts [ha h, hb h]
  simp only [save, hsrc, if_neg hor, if_pos (And.intro hne hex)]

/-- `save` with a valid request moving to a fresh, distinct destination:
success, with the moved files under the destination, the source gone, the
backup area rewritten and the ledger appended. -/
theorem save_moved_spec (st : St) (src a b y g dn dt : String)
    (titles : Nat → String) (art : Option String) (now : String) (d : Dir)
    (hsrc : st.music src = some d)
    (ha : strStrip a ≠ "") (hb : strStrip b ≠ "")
    (hne : destOf a b ≠ src)
    (hfresh : st.music (destOf a b) = none) :
    save st src a b y g dn dt titles art now =
      ({ music := fun p =>
           if p = destOf a b then
             some (processTracks d true (strStrip a) (strStrip b)
               (strStrip y) (strStrip g) (strStrip dn) (strStrip dt)
               titles art)
           else if p = src then none
           else st.music p
         backups := fun p =>
           if p = backupPathOf src now then some d
           else if strEndsWith p ("_" ++ basename src) then none
           else st.backups p
         history := add_history_entry st.history
           { artist := strStrip a, album := strStrip b,
             action := "Moved from " ++ basename src,
             original_path := src, new_path := some (destOf a b),
             backup_path := some (backupPathOf src now) } now },
        .success) := by
  have hor : ¬ (strStrip a = "" ∨ strStrip b = "") := by
    rintro (h | h)
    exacts [ha h, hb h]
  have hand : ¬ (¬ destOf a b = src ∧ (st.music (destOf a b)).isSome) := by
    rintro ⟨-, hs⟩
    rw [hfresh] at hs
    simp at hs
  simp only [save, hsrc, if_neg hor, if_neg hand, if_neg hne,
    decide_eq_false hne, Bool.not_false, create_backup]

/-! ## `undo` branch characterisations -/

/-- A found undo target passed the scan predicate. -/
theorem get_last_undoable_props {h : List Entry} {e : Entry}
    (hglu : get_last_undoable h = some e) :
    e.undone = false ∧ ∃ bp, e.backup_path = some bp ∧ bp ≠ "" := by
  have hp := List.find?_some hglu
  simp only [undoableB, Bool.and_eq_true, Bool.not_eq_true'] at hp
  obtain ⟨hu, ht⟩ := hp
  cases hbp : e.backup_path with
  | none => rw [hbp] at ht; simp [truthy] at ht
  | some bp =>
    rw [hbp] at ht
    simp only [truthy] at ht
    exact ⟨hu, bp, rfl, by simpa using ht⟩

/-- `undo` with no eligible ledger entry. -/
theorem undo_nothing_spec (st : St)
    (hglu : get_last_undoable st.history = none) :
    undo st = (st, .nothingToUndo) := by
  simp only [undo, hglu]

/-- `undo` when the target's backup directory is gone. -/
theorem undo_missing_spec (st : St) (e : Entry) (bp : String)
    (hglu : get_last_undoable st.history = some e)
    (hbp : e.backup_path = some bp)
    (hgone : st.backups bp = none) :
    undo st = (st, .backupMissing) := by
  simp only [undo, hglu, hbp, hgone]
  rw [if_neg]
  rintro ⟨-, hs⟩
  simp at hs

/-- `undo` when the target's backup still exists: the destination and any
leftover source contents are removed, the backup moves back to the source
path, and the target entry is flipped. -/
theorem undo_success_spec (st : St) (e : Entry) (bp : String) (bd : Dir)
    (hglu : get_last_undoable st.history = some e)
    (hbp : e.backup_path = some bp) (hne : bp ≠ "")
    (hbk : st.backups bp = some bd) :
    undo st =
      ({ music := fun p =>
           if p = e.original_path then some bd
           else if some p = e.new_path then none
           else st.music p
         backups := fun p => if p = bp then none else st.backups p
         history := markUndone st.history e.id }, .success) := by
  simp only [undo, hglu, hbp, hbk, Option.isSome_some, Option.getD_some]
  rw [if_pos ⟨hne, trivial⟩]

/-! ## The history cap -/

/-- After `n` appends to an empty ledger, exactly the most recent
`min n 100` entries remain, in order. -/
theorem appendRun_spec (f : Nat → EntryData) (now : Nat → String) (n : Nat) :
    (appendRun f now n).map entrySnapshot =
      ((List.range n).drop (n - 100)).map (fun i => (f i, now i)) ∧
    (appendRun f now n).length = min n 100 := by
  induction n with
  | zero => simp [appendRun]
  | succ n ih =>
    obtain ⟨ih1, ih2⟩ := ih
    have hstep : appendRun f now (n + 1) =
        (appendRun f now n).drop ((appendRun f now n).length + 1 - 100) ++
          [stampedEntry (appendRun f now n) (f n) (now n)] := by
      unfold appendRun
      rw [List.range_succ, List.foldl_append]
      simp only [List.foldl_cons, List.foldl_nil]
      exact add_history_entry_eq _ _ _
    have hsnap : entrySnapshot (stampedEntry (appendRun f now n) (f n)
        (now n)) = (f n, now n) := rfl
    constructor
    · rw [hstep, List.map_append, List.map_drop, ih1, ih2,
        List.map_singleton, hsnap]
      rw [← List.map_drop, List.drop_drop]
      have harith : n - 100 + (min n 100 + 1 - 100) = n + 1 - 100 := by
        omega
      rw [harith, List.range_succ,
        List.drop_append_of_le_length (by rw [List.length_range]; omega),
        List.map_append, List.map_singleton]
    · rw [hstep]
      simp only [List.length_append, List.length_drop, ih2,
        List.length_cons, List.length_nil]
      omega

/-! ## Claim theorems -/

/-- C1: Round trip. Reorganizing an album from source `S` to a fresh,
distinct destination `D` (backup taken, files tagged and moved, ledger
entry appended) succeeds, and a subsequent undo succeeds, removes `D`,
restores `S` with the identical file set and tags it had before the
operation, and flips that ledger entry's `undone` flag to `true`; a second
immediate undo — there being no other undoable entry (and no stale entry
already carrying the id the new entry receives) — reports nothing-to-undo
and changes nothing. -/
theorem c1_reorganize_undo_round_trip (st : St)
    (src a b y g dn dt : String) (titles : Nat → String)
    (art : Option String) (now : String) (d0 : Dir)
    (hsrc : st.music src = some d0)
    (ha : strStrip a ≠ "") (hb : strStrip b ≠ "")
    (hne : destOf a b ≠ src)
    (hfresh : st.music (destOf a b) = none)
    (hids : ∀ e ∈ st.history, e.id ≠ st.history.length + 1)
    (hund : ∀ e ∈ st.history, undoableB e = false) :
    (save st src a b y g dn dt titles art now).2 = .success ∧
    (undo (save st src a b y g dn dt titles art now).1).2 = .success ∧
    (undo (save st src a b y g dn dt titles art now).1).1.music
      (destOf a b) = none ∧
    (undo (save st src a b y g dn dt titles art now).1).1.music src
      = some d0 ∧
    (∃ e, (save st src a b y g dn dt titles art now).1.history.getLast?
        = some e ∧
      e.undone = false ∧ e.backup_path = some (backupPathOf src now) ∧
      (undo (save st src a b y g dn dt titles art now).1).1.history.getLast?
        = some { e with undone := true }) ∧
    undo (undo (save st src a b y g dn dt titles art now).1).1 =
      ((undo (save st src a b y g dn dt titles art now).1).1,
        .nothingToUndo) := by
  have hsave := save_moved_spec st src a b y g dn dt titles art now d0 hsrc
    ha hb hne hfresh
  rw [add_history_entry_eq] at hsave
  set e0 := stampedEntry st.history
    { artist := strStrip a, album := strStrip b
      action := "Moved from " ++ basename src
      original_path := src, new_path := some (destOf a b)
      backup_path := some (backupPathOf src now) } now with he0
  set pre := st.history.drop (st.history.length + 1 - 100) with hpre
  have hbpne : backupPathOf src now ≠ "" := backupPathOf_ne_empty src now
  have hu : undoableB e0 = true := by
    rw [he0]
    simp [stampedEntry, undoableB, truthy, hbpne]
  have hglu : get_last_undoable (pre ++ [e0]) = some e0 :=
    get_last_undoable_concat pre e0 hu
  have hbp : e0.backup_path = some (backupPathOf src now) := by
    rw [he0]; rfl
  have horig : e0.original_path = src := by
    rw [he0]; rfl
  have hnew : e0.new_path = some (destOf a b) := by
    rw [he0]; rfl
  have hid : e0.id = st.history.length + 1 := by
    rw [he0]; rfl
  have hu0 : e0.undone = false := by
    rw [he0]; rfl
  have hpre_mem : ∀ x ∈ pre, x.id ≠ e0.id := by
    intro x hx
    rw [hid]
    exact hids x (List.mem_of_mem_drop (hpre ▸ hx))
  have hpre_und : ∀ x ∈ pre, undoableB x = false := fun x hx =>
    hund x (List.mem_of_mem_drop (hpre ▸ hx))
  have hmark : markUndone (pre ++ [e0]) e0.id =
      pre ++ [{ e0 with undone := true }] :=
    markUndone_concat pre e0 hpre_mem
  simp only [hsave]
  have hundo := undo_success_spec
    { music := fun p =>
        if p = destOf a b then
          some (processTracks d0 true (strStrip a) (strStrip b)
            (strStrip y) (strStrip g) (strStrip dn) (strStrip dt)
            titles art)
        else if p = src then none
        else st.music p
      backups := fun p =>
        if p = backupPathOf src now then some d0
        else if strEndsWith p ("_" ++ basename src) then none
        else st.backups p
      history := pre ++ [e0] }
    e0 (backupPathOf src now) d0 hglu hbp hbpne (by simp)
  simp only [horig, hnew, hmark] at hundo
  simp only [hundo]
  have hall : ∀ x ∈ pre ++ [{ e0 with undone := true }],
      undoableB x = false := by
    intro x hx
    rcases List.mem_append.1 hx with hx | hx
    · exact hpre_und x hx
    · simp only [List.mem_singleton] at hx
      subst hx
      exact undoableB_marked e0
  refine ⟨trivial, trivial, by simp [hne], by simp, ⟨e0, ?_, hu0, hbp, ?_⟩,
    ?_⟩
  · exact List.getLast?_concat _
  · exact List.getLast?_concat _
  · exact undo_nothing_spec _ (get_last_undoable_none _ hall)

/-- C1 counterexample: on a state whose capped history already contains an
entry with id 101 (reachable by appending past the 100-entry cap, all old
entries non-undoable so the claim's own proviso holds), the round trip
breaks: the save and the first undo succeed, but the new ledger entry's
`undone` flag is NOT flipped (the id-matching loop flips the stale entry
sharing id 101 instead), and the second immediate undo reports
backup-missing rather than nothing-to-undo. -/
theorem c1_counterexample :
    (∀ e ∈ exStBug.history, undoableB e = false) ∧
    (save exStBug exSrc "Queen" "News" "" "" "" "" (fun _ => "t") none
      "TS").2 = .success ∧
    (undo (save exStBug exSrc "Queen" "News" "" "" "" "" (fun _ => "t")
      none "TS").1).2 = .success ∧
    ((undo (save exStBug exSrc "Queen" "News" "" "" "" "" (fun _ => "t")
      none "TS").1).1.history.getLast?).map (fun e => e.undone)
      = some false ∧
    (undo (undo (save exStBug exSrc "Queen" "News" "" "" "" ""
      (fun _ => "t") none "TS").1).1).2 = UndoRes.backupMissing := by decide

/-- C1 witness: the round trip at a concrete one-track album. -/
theorem c1_round_trip_witness :
    (save exSt exSrc "Queen" "News" "1977" "" "" "" (fun _ => "t") none
      "TS").2 = .success ∧
    (undo (save exSt exSrc "Queen" "News" "1977" "" "" "" (fun _ => "t")
      none "TS").1).2 = .success ∧
    (undo (save exSt exSrc "Queen" "News" "1977" "" "" "" (fun _ => "t")
      none "TS").1).1.music (destOf "Queen" "News") = none ∧
    (undo (save exSt exSrc "Queen" "News" "1977" "" "" "" (fun _ => "t")
      none "TS").1).1.music exSrc = some exDir ∧
    undo (undo (save exSt exSrc "Queen" "News" "1977" "" "" ""
      (fun _ => "t") none "TS").1).1 =
      ((undo (save exSt exSrc "Queen" "News" "1977" "" "" "" (fun _ => "t")
        none "TS").1).1, .nothingToUndo) := by
  have h := c1_reorganize_undo_round_trip exSt exSrc "Queen" "News" "1977"
    "" "" "" (fun _ => "t") none "TS" exDir (by decide) (by decide)
    (by decide) (by decide) (by decide) (by decide) (by decide)
  exact ⟨h.1, h.2.1, h.2.2.1, h.2.2.2.1, h.2.2.2.2.2⟩

/-- C2 counterexample: with an older entry whose backup exists and a newer
entry whose backup is gone, the code's scan picks the newer entry (it does
not test disk existence) and undo then fails with backup-missing, whereas
the claimed scan would pick the older entry. -/
theorem c2_counterexample :
    get_last_undoable exStC2.history = some e2 ∧
    claimUndoTarget exStC2.history
      (fun bp => (exStC2.backups bp).isSome) = some e1 ∧
    e1 ≠ e2 ∧
    (undo exStC2).2 = UndoRes.backupMissing := by decide

/-- C2 amended: the undo target is the newest history entry whose undone
flag is false and whose backup path is truthy — disk existence of the
backup is not part of the scan; `undo` reports nothing-to-undo exactly when
no entry qualifies, and fails with backup-missing exactly when the scanned
entry's recorded backup no longer exists. -/
theorem c2_undo_target_amended :
    (∀ (h : List Entry) (e : Entry),
      get_last_undoable h = some e ↔
        ∃ pre post, h = pre ++ e :: post ∧ undoableB e = true ∧
          ∀ x ∈ post, undoableB x = false) ∧
    (∀ st : St,
      (undo st).2 = .nothingToUndo ↔ get_last_undoable st.history = none) ∧
    (∀ (st : St) (e : Entry), get_last_undoable st.history = some e →
      ∃ bp, e.backup_path = some bp ∧
        ((undo st).2 = .backupMissing ↔ st.backups bp = none)) := by
  refine ⟨?_, ?_, ?_⟩
  · intro h e
    constructor
    · intro hglu
      obtain ⟨hp, as, bs, hdec, hpre⟩ := find?_decomp hglu
      refine ⟨bs.reverse, as.reverse, ?_, hp, ?_⟩
      · have := congrArg List.reverse hdec
        simpa [List.reverse_append] using this
      · intro x hx
        exact hpre x (List.mem_reverse.1 hx)
    · rintro ⟨pre, post, rfl, he, hpost⟩
      unfold get_last_undoable
      rw [List.reverse_append, List.reverse_cons, List.append_assoc]
      rw [List.singleton_append]
      exact find?_of_decomp he (fun x hx => hpost x (List.mem_reverse.1 hx))
  · intro st
    cases hglu : get_last_undoable st.history with
    | none => simp [undo_nothing_spec st hglu]
    | some e =>
      obtain ⟨-, bp, hbp, hne⟩ := get_last_undoable_props hglu
      cases hbk : st.backups bp with
      | none => simp [undo_missing_spec st e bp hglu hbp hbk, hglu]
      | some bd => simp [undo_success_spec st e bp bd hglu hbp hne hbk, hglu]
  · intro st e hglu
    obtain ⟨-, bp, hbp, hne⟩ := get_last_undoable_props hglu
    refine ⟨bp, hbp, ?_⟩
    cases hbk : st.backups bp with
    | none => simp [undo_missing_spec st e bp hglu hbp hbk]
    | some bd => simp [undo_success_spec st e bp bd hglu hbp hne hbk]

/-- C2 witness: the amended characterisation at the concrete two-entry
history. -/
theorem c2_amended_witness :
    (get_last_undoable exStC2.history = some e2 ↔
      ∃ pre post, exStC2.history = pre ++ e2 :: post ∧
        undoableB e2 = true ∧ ∀ x ∈ post, undoableB x = false) ∧
    ∃ bp, e2.backup_path = some bp ∧
      ((undo exStC2).2 = .backupMissing ↔ exStC2.backups bp = none) :=
  ⟨c2_undo_target_amended.1 exStC2.history e2,
    c2_undo_target_amended.2.2 exStC2 e2 (by decide)⟩

/-- C3: once an album reaches the consensus stage (some track identified
and the identification gate passed), `primary_artist` is the most frequent
artist among identified tracks with ties broken first-encountered,
`consensus_ratio = count(primary_artist) / identified_count`, and the album
is rejected as NoConsensus exactly when that ratio is below `0.70`;
otherwise it is accepted. -/
theorem c3_consensus_gate (results : List (Option Found))
    (h0 : results.length ≠ 0)
    (h1 : ¬ mkRat ((identifiedOf results).length) results.length <
      mkRat 7 10)
    (h2 : artistsOf results ≠ []) :
    ∃ pa, mostCommon (artistsOf results) = some pa ∧
      IsPrimary (artistsOf results) pa ∧
      (analyze_album results = .error .noConsensus ↔
        (((artistsOf results).count pa : ℚ) /
          (identifiedOf results).length < 7/10)) ∧
      (∀ c, analyze_album results = .ok c → c.artist = pa ∧
        c.consensus_ratio = ((artistsOf results).count pa : ℚ) /
          (identifiedOf results).length) ∧
      (¬ (((artistsOf results).count pa : ℚ) /
          (identifiedOf results).length < 7/10) →
        ∃ c, analyze_album results = .ok c) := by
  obtain ⟨pa, hm⟩ := mostCommon_isSome _ h2
  have hprim := mostCommon_primary _ _ hm
  have hlen : (artistsOf results).length = (identifiedOf results).length :=
    List.length_map _ _
  have hbridge : mkRat ((artistsOf results).count pa)
      (artistsOf results).length =
      ((artistsOf results).count pa : ℚ) / (identifiedOf results).length := by
    rw [mkRat_cast_div, hlen]
  have h710 : mkRat 7 10 = (7 : ℚ) / 10 := by
    rw [Rat.mkRat_eq_div]
    norm_num
  refine ⟨pa, hm, hprim, ?_, ?_, ?_⟩
  · rw [← hbridge, ← h710]
    exact analyze_noConsensus_iff results pa h0 h1 hm
  · intro c hc
    obtain ⟨hart, -, hratio, -⟩ := analyze_ok_spec results c hc
    have hpa : c.artist = pa := by
      rw [hm] at hart
      exact (Option.some.injEq _ _ ▸ hart).symm
    refine ⟨hpa, ?_⟩
    rw [hratio, hpa, hbridge]
  · intro hge
    obtain ⟨c, hc, -⟩ := analyze_ok_of_gates results pa h0 h1 hm
      (by rw [hbridge, h710]; exact hge)
    exact ⟨c, hc⟩

/-- C3 witness: the 10-track album with 8 tracks identifying artist `A` and
2 identifying artist `B` is accepted with `primary_artist = A` and
`consensus_ratio = 0.8`. -/
theorem c3_consensus_witness :
    (∃ pa, mostCommon (artistsOf ex10) = some pa ∧
      IsPrimary (artistsOf ex10) pa ∧
      (analyze_album ex10 = .error .noConsensus ↔
        (((artistsOf ex10).count pa : ℚ) /
          (identifiedOf ex10).length < 7/10)) ∧
      (∀ c, analyze_album ex10 = .ok c → c.artist = pa ∧
        c.consensus_ratio = ((artistsOf ex10).count pa : ℚ) /
          (identifiedOf ex10).length) ∧
      (¬ (((artistsOf ex10).count pa : ℚ) /
          (identifiedOf ex10).length < 7/10) →
        ∃ c, analyze_album ex10 = .ok c)) ∧
    analyze_album ex10 = .ok { artist := "A"
                               album := "X"
                               year := ""
                               identified_count := 10
                               total_tracks := 10
                               consensus_ratio := mkRat 8 10 } ∧
    (mkRat 8 10 : ℚ) = 4/5 :=
  ⟨c3_consensus_gate ex10 (by decide) (by decide) (by decide), by decide,
    by rw [Rat.mkRat_eq_div]; norm_num⟩

/-- C4 counterexample: the artist `"Boston"` is not in the claimed
multi-artist vocabulary, yet the code splits its track titles, because
`is_compilation` also fires when `'ost'` occurs anywhere inside the
lowercased artist. -/
theorem c4_counterexample :
    trackFields "Boston" "Beatles - Yesterday" 1 ≠
      claimTrackFields "Boston" "Beatles - Yesterday" 1 ∧
    claimVocabMatch "Boston" = false ∧
    trackFields "Boston" "Beatles - Yesterday" 1 =
      ("Beatles", "Yesterday") ∧
    claimTrackFields "Boston" "Beatles - Yesterday" 1 =
      ("Boston", "Beatles - Yesterday") := by decide

/-- C4 amended: the split fires exactly when the amended compilation marker
holds (vocabulary membership, or `'various'` / `'soundtrack'` / `'ost'`
occurring as a substring of the lowercased artist) and the title contains
`" - "` with both halves non-blank; otherwise the track keeps the album
artist and the supplied title (falling back to `"Track N"` when empty). The
vocabulary example still splits. -/
theorem c4_track_split_amended :
    (∀ (artist rawTitle : String) (i : Nat),
      trackFields artist rawTitle i = amendedTrackFields artist rawTitle i) ∧
    trackFields "Various Artists" "Beatles - Yesterday" 1 =
      ("Beatles", "Yesterday") ∧
    trackFields "Various Artists" "Yesterday" 1 =
      ("Various Artists", "Yesterday") ∧
    trackFields "Queen" "" 3 = ("Queen", "Track 3") := by
  refine ⟨?_, by decide, by decide, by decide⟩
  intro artist raw i
  have hcomp : is_compilation artist = amendedCompMarker artist := by
    unfold is_compilation amendedCompMarker claimVocabMatch
    simp only [List.any_cons, List.any_nil, Bool.or_false, Bool.or_assoc]
  unfold trackFields amendedTrackFields
  rw [hcomp]

/-- C5: a reorganize request whose computed destination is distinct from
the source and already exists aborts with `DestinationExists`, and the
whole music area — in particular the source and the existing destination —
is exactly as before the call. -/
theorem c5_destination_exists (st : St) (src a b y g dn dt : String)
    (titles : Nat → String) (art : Option String) (now : String) (d e : Dir)
    (hsrc : st.music src = some d)
    (ha : strStrip a ≠ "") (hb : strStrip b ≠ "")
    (hne : destOf a b ≠ src)
    (hex : st.music (destOf a b) = some e) :
    (save st src a b y g dn dt titles art now).2 = .destinationExists ∧
    (save st src a b y g dn dt titles art now).1.music = st.music ∧
    (save st src a b y g dn dt titles art now).1.music src = some d ∧
    (save st src a b y g dn dt titles art now).1.music (destOf a b)
      = some e := by
  have h := save_destExists_spec st src a b y g dn dt titles art now d hsrc
    ha hb hne (by rw [hex]; rfl)
  rw [h]
  exact ⟨rfl, rfl, hsrc, hex⟩

/-- C5 witness: the destination-conflict scenario at a concrete state. -/
theorem c5_destination_exists_witness :
    (save exStConflict exSrc "Queen" "News" "" "" "" "" (fun _ => "t") none
      "TS").2 = .destinationExists ∧
    (save exStConflict exSrc "Queen" "News" "" "" "" "" (fun _ => "t") none
      "TS").1.music = exStConflict.music ∧
    (save exStConflict exSrc "Queen" "News" "" "" "" "" (fun _ => "t") none
      "TS").1.music exSrc = some exDir ∧
    (save exStConflict exSrc "Queen" "News" "" "" "" "" (fun _ => "t") none
      "TS").1.music (destOf "Queen" "News") = some [] :=
  c5_destination_exists exStConflict exSrc "Queen" "News" "" "" "" ""
    (fun _ => "t") none "TS" exDir [] (by decide) (by decide) (by decide)
    (by decide) (by decide)

/-- C6 (code bug): the id scheme `id = len(history) + 1` collides with the
100-entry cap. After 101 appends the capped history already contains an
entry with id 101, and the 102nd append assigns id 101 again, so two
retrievable entries share an id — contradicting the claimed strict
monotonicity. -/
theorem c6_duplicate_ids :
    (histN 101).length = 100 ∧
    (∃ e ∈ histN 101, e.id = 101) ∧
    ((histN 102).map (fun e => e.id)).count 101 = 2 := by decide

/-- C7: the history is capped at the 100 most recent entries: after
appending 105 entries (arbitrary payloads and timestamps) to an empty
ledger, exactly the 100 most recent survive, in order, and the oldest 5
are gone. -/
theorem c7_history_cap (f : Nat → EntryData) (now : Nat → String) :
    (appendRun f now 105).map entrySnapshot =
      ((List.range 105).drop 5).map (fun i => (f i, now i)) ∧
    (appendRun f now 105).length = 100 := by
  have h := appendRun_spec f now 105
  simpa using h

/-- C8: the resolver scans result groups in order, skips groups scoring
below the `0.80` floor, and returns the first recording with non-empty
title and artist (no further search); its album is the first release's
title when that is non-empty, its year is the first 4 characters of the
first release's date when that has at least 4 characters and empty
otherwise (also empty with no release); it returns nothing exactly when no
group/recording qualifies. -/
theorem c8_resolver_first_fit (gs : List RGroup) :
    (fingerprint_and_lookup gs = none ↔ claimResolverTarget gs = none) ∧
    (∀ s rec, claimResolverTarget gs = some (s, rec) →
      ∃ fd, fingerprint_and_lookup gs = some fd ∧
        fd.score = s ∧ fd.title = rec.title ∧
        fd.artist = rec.artists.headD "" ∧
        (∀ r, rec.releases.head? = some r →
          (r.title ≠ "" → fd.album = r.title) ∧
          fd.year = (if 4 ≤ r.date.toList.length then
            String.mk (r.date.toList.take 4) else "")) ∧
        (rec.releases.head? = none → fd.year = "")) := by
  have key := lookup_eq_claimTarget gs
  constructor
  · rw [key]
    cases claimResolverTarget gs <;> simp
  · intro s rec h
    refine ⟨mkFound s rec, by rw [key, h]; rfl, rfl, rfl, rfl, ?_, ?_⟩
    · intro r hr
      constructor
      · intro ht
        simp [mkFound, hr, ht]
      · have hiff : (r.date ≠ "" ∧ 4 ≤ r.date.toList.length) ↔
            4 ≤ r.date.toList.length := by
          constructor
          · exact And.right
          · intro h4
            refine ⟨?_, h4⟩
            intro hc
            rw [hc] at h4
            exact absurd h4 (by decide)
        simp only [mkFound, hr]
        rw [if_congr hiff rfl rfl]
    · intro hr
      simp [mkFound, hr]

/-- C8 witness: the resolver at a one-group, one-recording response with a
release. -/
theorem c8_resolver_witness :
    (fingerprint_and_lookup groupRel = none ↔
      claimResolverTarget groupRel = none) ∧
    ∃ fd, fingerprint_and_lookup groupRel = some fd ∧
      fd.title = "T2" ∧ fd.artist = "A" ∧ fd.album = "X" ∧
      fd.year = "1999" := by
  refine ⟨(c8_resolver_first_fit groupRel).1, ?_⟩
  obtain ⟨fd, hfd, -, hti, har, hrel, -⟩ :=
    (c8_resolver_first_fit groupRel).2 (mkRat 9 10) recRel (by decide)
  obtain ⟨halb, hyear⟩ := hrel { title := "X", date := "1999-01-01" }
    (by decide)
  refine ⟨fd, hfd, by rw [hti]; decide, by rw [har]; decide,
    halb (by decide), ?_⟩
  rw [hyear]
  decide

/-- C9 counterexample: an accepted 7-track album where four identified
tracks carry no release (the resolver substitutes `"Unknown Album"` for
them) and three carry album `X`: the code picks `"Unknown Album"` as
`primary_album` although identified tracks do carry non-empty album
strings, whose most frequent value is `X`. -/
theorem c9_counterexample :
    (∃ c, analyze_album (exPipeline.map fingerprint_and_lookup) = .ok c ∧
      c.album = "Unknown Album") ∧
    carriedAlbums exPipeline = ["X", "X", "X"] ∧
    "Unknown Album" ∉ carriedAlbums exPipeline := by
  refine ⟨⟨{ artist := "A"
             album := "Unknown Album"
             year := "1999"
             identified_count := 7
             total_tracks := 7
             consensus_ratio := mkRat 7 7 }, by decide, rfl⟩, by decide,
    by decide⟩

/-- C9 amended: each identified track contributes one album string — the
first release's title when non-empty, the literal `"Unknown Album"`
otherwise — and `primary_album` is the most frequent of these strings (ties
first-encountered), so `"Unknown Album"` can win even when some tracks
carry real album names; the empty-list fallback only arises with no
identified track at all. -/
theorem c9_album_amended (results : List (Option Found))
    (halb : ∀ f ∈ identifiedOf results, f.album ≠ "") (c : Candidate)
    (hok : analyze_album results = .ok c) :
    IsPrimary ((identifiedOf results).map (fun f => f.album)) c.album ∧
    (∀ (s : ℚ) (rec : Recording), (mkFound s rec).album ≠ "" ∧
      (rec.releases.head? = none →
        (mkFound s rec).album = "Unknown Album") ∧
      (∀ r, rec.releases.head? = some r → r.title = "" →
        (mkFound s rec).album = "Unknown Album") ∧
      (∀ r, rec.releases.head? = some r → r.title ≠ "" →
        (mkFound s rec).album = r.title)) := by
  constructor
  · obtain ⟨-, halbum, -, -, -, -, -, hartists, -⟩ :=
      analyze_ok_spec results c hok
    have hfilter : albumsOf results =
        (identifiedOf results).map (fun f => f.album) := by
      unfold albumsOf
      apply List.filter_eq_self.2
      intro x hx
      obtain ⟨f, hf, rfl⟩ := List.mem_map.1 hx
      simpa using halb f hf
    have hne2 : (identifiedOf results).map (fun f => f.album) ≠ [] := by
      intro hc
      apply hartists
      have hid : identifiedOf results = [] := by simpa using hc
      simp [artistsOf, hid]
    obtain ⟨pa, hm⟩ := mostCommon_isSome (albumsOf results)
      (by rw [hfilter]; exact hne2)
    have hpa : c.album = pa := by
      rw [halbum, hm]
      rfl
    rw [hpa, ← hfilter]
    exact mostCommon_primary _ _ hm
  · intro s rec
    refine ⟨?_, ?_, ?_, ?_⟩
    · cases hr : rec.releases.head? with
      | none => simp [mkFound, hr]
      | some r =>
        by_cases ht : r.title = ""
        · simp [mkFound, hr, ht]
        · simp [mkFound, hr, ht]
    · intro hr
      simp [mkFound, hr]
    · intro r hr ht
      simp [mkFound, hr, ht]
    · intro r hr ht
      simp [mkFound, hr, ht]

/-- C9 witness: the amended album choice at the concrete pipeline input. -/
theorem c9_album_amended_witness :
    IsPrimary ((identifiedOf (exPipeline.map fingerprint_and_lookup)).map
      (fun f => f.album))
      (Candidate.album { artist := "A"
                         album := "Unknown Album"
                         year := "1999"
                         identified_count := 7
                         total_tracks := 7
                         consensus_ratio := mkRat 7 7 }) :=
  (c9_album_amended (exPipeline.map fingerprint_and_lookup) (by decide)
    { artist := "A"
      album := "Unknown Album"
      year := "1999"
      identified_count := 7
      total_tracks := 7
      consensus_ratio := mkRat 7 7 } (by decide)).1

/-- C10 (implicit behaviour): on any save request with non-empty artist and
album over an existing source folder, the backup area is rewritten — every
prior backup whose name ends with `"_" + basename(source)` is deleted and a
fresh backup of the source is stored — before the destination-exists check;
hence even a request that then aborts with `DestinationExists` has mutated
the backup area while appending no history entry. -/
theorem c10_backup_before_dest_check (st : St) (src a b y g dn dt : String)
    (titles : Nat → String) (art : Option String) (now : String) (d : Dir)
    (hsrc : st.music src = some d)
    (ha : strStrip a ≠ "") (hb : strStrip b ≠ "") :
    (∀ p, (save st src a b y g dn dt titles art now).1.backups p =
      if p = backupPathOf src now then some d
      else if strEndsWith p ("_" ++ basename src) then none
      else st.backups p) ∧
    (destOf a b ≠ src → ∀ e, st.music (destOf a b) = some e →
      (save st src a b y g dn dt titles art now).2 = .destinationExists ∧
      (save st src a b y g dn dt titles art now).1.history = st.history) := by
  have hor : ¬ (strStrip a = "" ∨ strStrip b = "") := by
    rintro (h | h)
    exacts [ha h, hb h]
  constructor
  · intro p
    simp only [save, hsrc, create_backup, if_neg hor]
    split
    · rfl
    · rfl
  · intro hne e hex
    have h := save_destExists_spec st src a b y g dn dt titles art now d
      hsrc ha hb hne (by rw [hex]; rfl)
    rw [h]
    exact ⟨rfl, rfl⟩

/-- C10 witness: the abort-yet-backup behaviour at the concrete conflict
state. -/
theorem c10_backup_before_dest_check_witness :
    ((save exStConflict exSrc "Queen" "News" "" "" "" "" (fun _ => "t")
      none "TS").1.backups (backupPathOf exSrc "TS") = some exDir) ∧
    (save exStConflict exSrc "Queen" "News" "" "" "" "" (fun _ => "t")
      none "TS").2 = .destinationExists ∧
    (save exStConflict exSrc "Queen" "News" "" "" "" "" (fun _ => "t")
      none "TS").1.history = exStConflict.history := by
  have h := c10_backup_before_dest_check exStConflict exSrc "Queen" "News"
    "" "" "" "" (fun _ => "t") none "TS" exDir (by decide) (by decide)
    (by decide)
  have h2 := h.2 (by decide) [] (by decide)
  refine ⟨?_, h2.1, h2.2⟩
  rw [h.1 (backupPathOf exSrc "TS")]
  simp

end PiMusic
